import Mathlib

/-!
Verification of the PnL aggregation pipeline of `src/app.py` (Hyperliquid
portfolio tracker).  The pandas pipeline is shallowly embedded: DataFrames
become lists of records, numeric columns become `Option ℚ` (with `none`
playing the role of NaN produced by `pd.to_numeric(..., errors='coerce')`),
and `.sum()` becomes a skip-missing sum.  Calendar dates are modelled as
day numbers (`Nat`), derived from millisecond epoch timestamps by
truncating division, matching `pd.to_datetime(time, unit='ms').dt.date`.
-/

namespace TrkHL

/-- A raw numeric field as received from the API: either a value that
parses as a number, or a malformed payload. -/
inductive RawVal where
  | num (q : ℚ)
  | bad (s : String)
deriving DecidableEq

/-- Model of `pd.to_numeric(x, errors='coerce')` on a single cell:
unparseable input becomes missing (NaN), never an exception. -/
def to_numeric_coerce : RawVal → Option ℚ
  | .num q => some q
  | .bad _ => none

/-- Raw fill object from the `userFills` response (app.py lines 61-69):
fields `time`, `coin`, `dir`, `px`, `sz`, `closedPnl`, `fee`,
`startPosition`. -/
structure RawFill where
  time : Nat
  coin : String
  dir : String
  px : RawVal
  sz : RawVal
  closedPnl : RawVal
  fee : RawVal
  startPosition : RawVal
deriving DecidableEq

/-- Raw funding object from the `userFunding` response: `time`, `coin`,
`usdc`. -/
structure RawFunding where
  time : Nat
  coin : String
  usdc : RawVal
deriving DecidableEq

/-- Milliseconds per calendar day, for `dt.date` truncation. -/
def msPerDay : Nat := 86400000

/-- Normalized fill row of `df_fills` after `process_data`: the numeric
columns have been coerced (`Option ℚ`, `none` = NaN) and `date` derived
from the millisecond timestamp. -/
structure Fill where
  time : Nat
  coin : String
  dir : String
  px : Option ℚ
  sz : Option ℚ
  closedPnl : Option ℚ
  fee : Option ℚ
  startPosition : Option ℚ
  date : Nat
deriving DecidableEq

/-- Normalized funding row of `df_funding`. -/
structure FundingPayment where
  time : Nat
  coin : String
  usdc : Option ℚ
  date : Nat
deriving DecidableEq

/-- Row-wise normalization of one raw fill (app.py lines 61-69): coerce
each numeric column independently, derive `date` from `time`. -/
def normalizeFill (r : RawFill) : Fill :=
  { time := r.time
    coin := r.coin
    dir := r.dir
    px := to_numeric_coerce r.px
    sz := to_numeric_coerce r.sz
    closedPnl := to_numeric_coerce r.closedPnl
    fee := to_numeric_coerce r.fee
    startPosition := to_numeric_coerce r.startPosition
    date := r.time / msPerDay }

/-- Row-wise normalization of one raw funding record (app.py lines 72-76). -/
def normalizeFunding (r : RawFunding) : FundingPayment :=
  { time := r.time
    coin := r.coin
    usdc := to_numeric_coerce r.usdc
    date := r.time / msPerDay }

/-- `process_data(fills, funding)` (app.py lines 53-80).  `Option` models
Python truthiness on the raw arguments: `none` is `None`, `some []` is an
empty list; both fail `if not fills` / `if funding`. -/
def process_data (fills : Option (List RawFill)) (funding : Option (List RawFunding)) :
    List Fill × List FundingPayment :=
  match fills with
  | none => ([], [])
  | some fs =>
    if fs.isEmpty then ([], [])
    else
      let df_fills := fs.map normalizeFill
      let df_funding :=
        match funding with
        | none => []
        | some gs => if gs.isEmpty then [] else gs.map normalizeFunding
      (df_fills, df_funding)

/-- Pandas `.sum()` over a column with NaNs: missing entries are skipped
(equivalently, contribute 0), and the empty sum is 0. -/
def psum (l : List (Option ℚ)) : ℚ :=
  l.foldr (fun o acc => o.getD 0 + acc) 0

/-- `total_closed_pnl = df_fills['closedPnl'].sum()` (app.py line 110). -/
def total_closed_pnl (df_fills : List Fill) : ℚ :=
  psum (df_fills.map Fill.closedPnl)

/-- `total_trading_fees = df_fills['fee'].sum()` (app.py line 115). -/
def total_trading_fees (df_fills : List Fill) : ℚ :=
  psum (df_fills.map Fill.fee)

/-- `total_funding = df_funding['usdc'].sum() if not df_funding.empty else 0`
(app.py line 116). -/
def total_funding (df_funding : List FundingPayment) : ℚ :=
  if df_funding.isEmpty then 0 else psum (df_funding.map FundingPayment.usdc)

/-- `net_pnl = total_closed_pnl - total_trading_fees + total_funding`
(app.py line 118). -/
def net_pnl (df_fills : List Fill) (df_funding : List FundingPayment) : ℚ :=
  total_closed_pnl df_fills - total_trading_fees df_fills + total_funding df_funding

/-- Pandas elementwise `x != 0` on a float column: NaN != 0 is `True`. -/
def ne_zero : Option ℚ → Bool
  | some q => q ≠ 0
  | none => true

/-- Pandas elementwise `x > 0` on a float column: NaN > 0 is `False`. -/
def gt_zero : Option ℚ → Bool
  | some q => q > 0
  | none => false

/-- `closed_trades = df_fills[df_fills['closedPnl'] != 0]` (app.py line 122). -/
def closed_trades (df_fills : List Fill) : List Fill :=
  df_fills.filter (fun f => ne_zero f.closedPnl)

/-- `wins = closed_trades[closed_trades['closedPnl'] > 0]` (app.py line 124). -/
def wins (df_fills : List Fill) : List Fill :=
  (closed_trades df_fills).filter (fun f => gt_zero f.closedPnl)

/-- `win_rate` (app.py lines 123-127): ratio of wins to closed trades
scaled to percent, and 0 when there are no closed trades. -/
def win_rate (df_fills : List Fill) : ℚ :=
  if 0 < (closed_trades df_fills).length then
    ((wins df_fills).length : ℚ) / ((closed_trades df_fills).length : ℚ) * 100
  else 0

/-- Outcome of one `requests.post` call: an HTTP response with a status
code and parsed body, or a raised transport exception. -/
inductive HttpResult (α : Type) where
  | ok (status : Nat) (body : α)
  | exn (msg : String)
deriving DecidableEq

/-- `True` when the call counts as failed for `fetch_hyperliquid_data`:
a transport exception, or any non-200 status. -/
def failedCall {α : Type} : HttpResult α → Bool
  | .ok s _ => s != 200
  | .exn _ => true

/-- `fetch_hyperliquid_data` (app.py lines 37-51) given the outcomes of
the two posts: any exception lands in the `except` branch and returns
`(None, None)`; a non-200 status on either call also returns
`(None, None)`; otherwise both bodies are returned. -/
def fetch_hyperliquid_data (r_fills : HttpResult (List RawFill))
    (r_funding : HttpResult (List RawFunding)) :
    Option (List RawFill) × Option (List RawFunding) :=
  match r_fills, r_funding with
  | .ok s1 b1, .ok s2 b2 =>
    if s1 ≠ 200 ∨ s2 ≠ 200 then (none, none) else (some b1, some b2)
  | _, _ => (none, none)

/-- Sorted unique keys of a `groupby`/outer-`merge`: pandas sorts group
keys ascending and an outer merge takes the sorted union of keys. -/
def sortedDates (ds : List Nat) : List Nat :=
  List.insertionSort (· ≤ ·) ds.dedup

/-- One row of `daily_fills = df_fills.groupby('date')[['closedPnl','fee']]
.sum().reset_index()` (app.py line 142): date, per-date closedPnl sum,
per-date fee sum. -/
def daily_fills (df_fills : List Fill) : List (Nat × ℚ × ℚ) :=
  (sortedDates (df_fills.map Fill.date)).map (fun d =>
    (d, psum ((df_fills.filter (fun f => f.date = d)).map Fill.closedPnl),
        psum ((df_fills.filter (fun f => f.date = d)).map Fill.fee)))

/-- One row of `daily_funding = df_funding.groupby('date')[['usdc']].sum()
.reset_index()` (app.py line 146). -/
def daily_funding (df_funding : List FundingPayment) : List (Nat × ℚ) :=
  (sortedDates (df_funding.map FundingPayment.date)).map (fun d =>
    (d, psum ((df_funding.filter (fun g => g.date = d)).map FundingPayment.usdc)))

/-- A row of `daily_combined` after the merge, before the derived columns:
columns `date`, `closedPnl`, `fee`, `usdc`. -/
structure DailyRow where
  date : Nat
  closedPnl : ℚ
  fee : ℚ
  usdc : ℚ
deriving DecidableEq

/-- `pd.merge(daily_fills, daily_funding, on='date', how='outer').fillna(0)`
(app.py line 147): the key column is the sorted union of both key sets;
a key absent from one side leaves that side's columns NaN, which
`fillna(0)` turns into 0. -/
def mergeOuterFillna (l : List (Nat × ℚ × ℚ)) (r : List (Nat × ℚ)) : List DailyRow :=
  (sortedDates (l.map Prod.fst ++ r.map Prod.fst)).map (fun d =>
    { date := d
      closedPnl :=
        match l.find? (fun p => p.1 = d) with
        | some p => p.2.1
        | none => 0
      fee :=
        match l.find? (fun p => p.1 = d) with
        | some p => p.2.2
        | none => 0
      usdc :=
        match r.find? (fun p => p.1 = d) with
        | some p => p.2
        | none => 0 })

/-- A finished row of `daily_combined` (app.py lines 152-155) with the
derived `daily_net_pnl` and `cumulative_pnl` columns. -/
structure AggRow where
  date : Nat
  closedPnl : ℚ
  fee : ℚ
  usdc : ℚ
  daily_net_pnl : ℚ
  cumulative_pnl : ℚ
deriving DecidableEq

/-- Ordering used by `daily_combined.sort_values('date')`. -/
def rowDateLe (a b : DailyRow × ℚ) : Prop := a.1.date ≤ b.1.date

instance : DecidableRel rowDateLe := fun a b => Nat.decLe a.1.date b.1.date

instance : IsTotal (DailyRow × ℚ) rowDateLe := ⟨fun a b => Nat.le_total a.1.date b.1.date⟩

instance : IsTrans (DailyRow × ℚ) rowDateLe := ⟨fun _ _ _ => Nat.le_trans⟩

/-- `daily_combined.sort_values('date')` (app.py line 154), applied to the
rows paired with their already-computed `daily_net_pnl`. -/
def sort_values_date (l : List (DailyRow × ℚ)) : List (DailyRow × ℚ) :=
  List.insertionSort rowDateLe l

/-- `daily_combined['cumulative_pnl'] = daily_combined['daily_net_pnl']
.cumsum()` (app.py line 155): running total threaded left to right. -/
def cumsumRows (acc : ℚ) : List (DailyRow × ℚ) → List AggRow
  | [] => []
  | (r, n) :: rest =>
    { date := r.date, closedPnl := r.closedPnl, fee := r.fee, usdc := r.usdc,
      daily_net_pnl := n, cumulative_pnl := acc + n } :: cumsumRows (acc + n) rest

/-- The merge step of `daily_combined` (app.py lines 145-150): outer
merge with zero fill when there is funding, otherwise take `daily_fills`
and append a constant-zero `usdc` column. -/
def merged_daily (df_fills : List Fill) (df_funding : List FundingPayment) :
    List DailyRow :=
  if df_funding.isEmpty then
    (daily_fills df_fills).map
      (fun t => { date := t.1, closedPnl := t.2.1, fee := t.2.2, usdc := 0 })
  else
    mergeOuterFillna (daily_fills df_fills) (daily_funding df_funding)

/-- `daily_combined['daily_net_pnl'] = closedPnl - fee + usdc` (app.py
line 153): each row paired with its daily net. -/
def with_net (l : List DailyRow) : List (DailyRow × ℚ) :=
  l.map (fun r => (r, r.closedPnl - r.fee + r.usdc))

/-- The whole chart-data pipeline (app.py lines 141-155): group both
frames by date, outer-merge with zero fill (or just append a zero `usdc`
column when there is no funding), derive `daily_net_pnl`, sort by date,
and take the cumulative sum. -/
def daily_combined (df_fills : List Fill) (df_funding : List FundingPayment) :
    List AggRow :=
  cumsumRows 0 (sort_values_date (with_net (merged_daily df_fills df_funding)))

/-- A fill with only the claim-relevant fields populated. -/
def fillOf (d : Nat) (pnl fe : Option ℚ) : Fill :=
  { time := 0, coin := "", dir := "", px := none, sz := none,
    closedPnl := pnl, fee := fe, startPosition := none, date := d }

/-- Scenario A fills: day 0 closedPnl 100 fee 1; day 1 closedPnl -50 fee 1. -/
def scA_F : List Fill := [fillOf 0 (some 100) (some 1), fillOf 1 (some (-50)) (some 1)]

/-- Scenario A funding: day 0 amount 5. -/
def scA_G : List FundingPayment := [{ time := 0, coin := "", usdc := some 5, date := 0 }]

/-- Scenario C fills: closedPnl 0, 10, -5. -/
def scC_F : List Fill :=
  [fillOf 0 (some 0) none, fillOf 0 (some 10) none, fillOf 0 (some (-5)) none]

/-- A fill whose `closedPnl` failed numeric coercion (NaN). -/
def malformedFill : Fill := fillOf 0 none none

/-- A winning fill: positive `closedPnl`. -/
def winningFill : Fill := fillOf 0 (some 10) none

/-- Scenario D raw fills: the successful fills response body. -/
def scD_fills : List RawFill :=
  [{ time := 0, coin := "BTC", dir := "Open Long", px := .num 1, sz := .num 1,
     closedPnl := .num 0, fee := .num 1, startPosition := .num 0 }]

theorem psum_nil : psum [] = 0 := rfl

theorem psum_cons (o : Option ℚ) (l : List (Option ℚ)) :
    psum (o :: l) = o.getD 0 + psum l := rfl

theorem mem_sortedDates {d : Nat} {ds : List Nat} : d ∈ sortedDates ds ↔ d ∈ ds := by
  simp [sortedDates, List.mem_insertionSort, List.mem_dedup]

theorem nodup_sortedDates (ds : List Nat) : (sortedDates ds).Nodup :=
  ((List.perm_insertionSort _ _).nodup_iff).mpr (List.nodup_dedup ds)

theorem sorted_sortedDates (ds : List Nat) : (sortedDates ds).Sorted (· ≤ ·) :=
  List.sorted_insertionSort _ _

theorem cumsumRows_length (acc : ℚ) (l : List (DailyRow × ℚ)) :
    (cumsumRows acc l).length = l.length := by
  induction l generalizing acc with
  | nil => rfl
  | cons p rest ih =>
    cases p with
    | mk r n => simp [cumsumRows, ih]

theorem cumsumRows_map_date (acc : ℚ) (l : List (DailyRow × ℚ)) :
    (cumsumRows acc l).map AggRow.date = l.map (fun p => p.1.date) := by
  induction l generalizing acc with
  | nil => rfl
  | cons p rest ih =>
    cases p with
    | mk r n => simp [cumsumRows, ih]

theorem cumsumRows_get (acc : ℚ) (l : List (DailyRow × ℚ)) (i : Nat)
    (h : i < (cumsumRows acc l).length) (h' : i < l.length) :
    ((cumsumRows acc l).get ⟨i, h⟩).date = (l.get ⟨i, h'⟩).1.date
    ∧ ((cumsumRows acc l).get ⟨i, h⟩).closedPnl = (l.get ⟨i, h'⟩).1.closedPnl
    ∧ ((cumsumRows acc l).get ⟨i, h⟩).fee = (l.get ⟨i, h'⟩).1.fee
    ∧ ((cumsumRows acc l).get ⟨i, h⟩).usdc = (l.get ⟨i, h'⟩).1.usdc
    ∧ ((cumsumRows acc l).get ⟨i, h⟩).daily_net_pnl = (l.get ⟨i, h'⟩).2 := by
  induction l generalizing acc i with
  | nil => cases h'
  | cons p rest ih =>
    cases p with
    | mk r n =>
      cases i with
      | zero => exact ⟨rfl, rfl, rfl, rfl, rfl⟩
      | succ j =>
        have hj : j < (cumsumRows (acc + n) rest).length := by
          simpa [cumsumRows] using h
        have hj' : j < rest.length := Nat.lt_of_succ_lt_succ h'
        exact ih (acc + n) j hj hj'

theorem cumsumRows_get_cumulative (acc : ℚ) (l : List (DailyRow × ℚ)) (i : Nat)
    (h : i < (cumsumRows acc l).length) :
    ((cumsumRows acc l).get ⟨i, h⟩).cumulative_pnl
      = acc + ((l.take (i + 1)).map Prod.snd).sum := by
  induction l generalizing acc i with
  | nil => simp [cumsumRows] at h
  | cons p rest ih =>
    cases p with
    | mk r n =>
      cases i with
      | zero => simp [cumsumRows]
      | succ j =>
        have hj : j < (cumsumRows (acc + n) rest).length := by
          simpa [cumsumRows] using h
        have := ih (acc + n) j hj
        simpa [cumsumRows, add_assoc] using this

theorem cumsumRows_getLast? (l : List (DailyRow × ℚ)) (acc : ℚ) (h : l ≠ []) :
    ∃ r : AggRow, (cumsumRows acc l).getLast? = some r
      ∧ r.cumulative_pnl = acc + (l.map Prod.snd).sum := by
  induction l generalizing acc with
  | nil => exact absurd rfl h
  | cons p rest ih =>
    cases p with
    | mk r n =>
      cases rest with
      | nil =>
        refine ⟨AggRow.mk r.date r.closedPnl r.fee r.usdc n (acc + n), ?_, by simp⟩
        simp [cumsumRows]
      | cons q rest' =>
        obtain ⟨r', hlast, hcum⟩ := ih (acc + n) (by simp)
        refine ⟨r', ?_, by simpa [add_assoc] using hcum⟩
        rw [cumsumRows]
        cases q with
        | mk rq nq =>
          rw [cumsumRows] at hlast ⊢
          simpa [List.getLast?] using hlast

theorem sum_map_add {β : Type} (l : List β) (f g : β → ℚ) :
    (l.map (fun x => f x + g x)).sum = (l.map f).sum + (l.map g).sum := by
  induction l with
  | nil => simp
  | cons x xs ih => simp only [List.map_cons, List.sum_cons, ih]; ring

theorem sum_map_net (l : List DailyRow) :
    (l.map (fun r => r.closedPnl - r.fee + r.usdc)).sum
      = (l.map DailyRow.closedPnl).sum - (l.map DailyRow.fee).sum
        + (l.map DailyRow.usdc).sum := by
  induction l with
  | nil => simp
  | cons x xs ih => simp only [List.map_cons, List.sum_cons, ih]; ring

theorem sum_map_ite_mem {ds : List Nat} (hnd : ds.Nodup) {a : Nat} (ha : a ∈ ds)
    (c : ℚ) :
    (ds.map (fun d => if a = d then c else 0)).sum = c := by
  induction ds with
  | nil => cases ha
  | cons d rest ih =>
    rcases List.mem_cons.mp ha with rfl | hmem
    · have hz : (rest.map (fun d => if a = d then c else 0)).sum = 0 := by
        apply List.sum_eq_zero
        intro x hx
        obtain ⟨d', hd', rfl⟩ := List.mem_map.mp hx
        have : a ≠ d' := fun heq => (List.nodup_cons.mp hnd).1 (heq ▸ hd')
        simp [this]
      simp [hz]
    · have hne : a ≠ d := by
        rintro rfl
        exact (List.nodup_cons.mp hnd).1 hmem
      simp [hne, ih (List.nodup_cons.mp hnd).2 hmem]

theorem psum_partition {α : Type} (key : α → Nat) (v : α → Option ℚ)
    {ds : List Nat} (hnd : ds.Nodup) :
    ∀ l : List α, (∀ x ∈ l, key x ∈ ds) →
      (ds.map (fun d => psum ((l.filter (fun x => key x = d)).map v))).sum
        = psum (l.map v) := by
  intro l
  induction l with
  | nil =>
    intro _
    apply List.sum_eq_zero
    intro x hx
    obtain ⟨d', _, rfl⟩ := List.mem_map.mp hx
    rfl
  | cons x xs ih =>
    intro hx
    have hkey : key x ∈ ds := hx x (List.mem_cons_self x xs)
    have hxs : ∀ y ∈ xs, key y ∈ ds := fun y hy => hx y (List.mem_cons_of_mem x hy)
    have hpt : ∀ d ∈ ds,
        psum (((x :: xs).filter (fun y => key y = d)).map v)
          = (if key x = d then (v x).getD 0 else 0)
            + psum ((xs.filter (fun y => key y = d)).map v) := by
      intro d _
      by_cases hd : key x = d
      · simp [List.filter_cons, hd, psum_cons]
      · simp [List.filter_cons, hd]
    calc (ds.map (fun d => psum (((x :: xs).filter (fun y => key y = d)).map v))).sum
        = (ds.map (fun d => (if key x = d then (v x).getD 0 else 0)
            + psum ((xs.filter (fun y => key y = d)).map v))).sum := by
          exact congrArg List.sum (List.map_congr_left hpt)
      _ = (ds.map (fun d => if key x = d then (v x).getD 0 else 0)).sum
            + (ds.map (fun d => psum ((xs.filter (fun y => key y = d)).map v))).sum :=
          sum_map_add ds _ _
      _ = (v x).getD 0 + psum (xs.map v) := by
          rw [sum_map_ite_mem hnd hkey, ih hxs]
      _ = psum ((x :: xs).map v) := rfl

theorem find?_map_key_eq_some {β : Type} (g : Nat → β) {ds : List Nat}
    (hnd : ds.Nodup) {d : Nat} (hd : d ∈ ds) :
    (ds.map (fun k => (k, g k))).find? (fun p => p.1 = d) = some (d, g d) := by
  induction ds with
  | nil => cases hd
  | cons a rest ih =>
    rcases List.mem_cons.mp hd with rfl | hmem
    · rw [List.map_cons, List.find?_cons_of_pos _ (by simp)]
    · have hne : a ≠ d := by
        rintro rfl
        exact (List.nodup_cons.mp hnd).1 hmem
      rw [List.map_cons, List.find?_cons_of_neg _ (by simp [hne]),
        ih (List.nodup_cons.mp hnd).2 hmem]

theorem find?_map_key_eq_none {β : Type} (g : Nat → β) {ds : List Nat}
    {d : Nat} (hd : d ∉ ds) :
    (ds.map (fun k => (k, g k))).find? (fun p => p.1 = d) = none := by
  apply List.find?_eq_none.mpr
  intro x hx
  obtain ⟨k, hk, rfl⟩ := List.mem_map.mp hx
  simp only [decide_eq_true_eq]
  rintro rfl
  exact hd hk

theorem daily_fills_keys (F : List Fill) :
    (daily_fills F).map Prod.fst = sortedDates (F.map Fill.date) := by
  rw [daily_fills, List.map_map]
  exact List.map_id'' (fun x => rfl) _

theorem daily_funding_keys (G : List FundingPayment) :
    (daily_funding G).map Prod.fst = sortedDates (G.map FundingPayment.date) := by
  rw [daily_funding, List.map_map]
  exact List.map_id'' (fun x => rfl) _

theorem merged_daily_dates_eq (F : List Fill) (G : List FundingPayment) :
    (merged_daily F G).map DailyRow.date
      = if G.isEmpty then sortedDates (F.map Fill.date)
        else sortedDates (sortedDates (F.map Fill.date)
          ++ sortedDates (G.map FundingPayment.date)) := by
  by_cases hG : G.isEmpty
  · rw [if_pos hG, merged_daily, if_pos hG, ← daily_fills_keys, List.map_map]
    exact List.map_congr_left (fun t _ => rfl)
  · rw [if_neg hG, merged_daily, if_neg hG, mergeOuterFillna,
      daily_fills_keys, daily_funding_keys, List.map_map]
    exact List.map_id'' (fun x => rfl) _

theorem mem_merged_daily_dates (F : List Fill) (G : List FundingPayment) (d : Nat) :
    d ∈ (merged_daily F G).map DailyRow.date
      ↔ d ∈ F.map Fill.date ∨ d ∈ G.map FundingPayment.date := by
  rw [merged_daily_dates_eq]
  by_cases hG : G.isEmpty
  · have hGnil : G = [] := List.isEmpty_iff.mp hG
    subst hGnil
    simp [mem_sortedDates]
  · simp [hG, mem_sortedDates, List.mem_append]

theorem merged_daily_dates_nodup (F : List Fill) (G : List FundingPayment) :
    ((merged_daily F G).map DailyRow.date).Nodup := by
  rw [merged_daily_dates_eq]
  by_cases hG : G.isEmpty <;> simp [hG, nodup_sortedDates]

theorem merged_mem_fields (F : List Fill) (G : List FundingPayment) :
    ∀ q ∈ merged_daily F G,
      q.closedPnl = psum ((F.filter (fun f => f.date = q.date)).map Fill.closedPnl)
      ∧ q.fee = psum ((F.filter (fun f => f.date = q.date)).map Fill.fee)
      ∧ q.usdc = psum ((G.filter (fun g => g.date = q.date)).map FundingPayment.usdc) := by
  intro q hq
  by_cases hG : G.isEmpty
  · have hGnil : G = [] := List.isEmpty_iff.mp hG
    rw [merged_daily, if_pos hG] at hq
    obtain ⟨t, ht, rfl⟩ := List.mem_map.mp hq
    rw [daily_fills] at ht
    obtain ⟨d, _, rfl⟩ := List.mem_map.mp ht
    subst hGnil
    exact ⟨rfl, rfl, rfl⟩
  · rw [merged_daily, if_neg hG, mergeOuterFillna] at hq
    obtain ⟨d, _, rfl⟩ := List.mem_map.mp hq
    by_cases hmemF : d ∈ F.map Fill.date
    case pos =>
      have hfind : (daily_fills F).find? (fun p => p.1 = d)
          = some (d, psum ((F.filter (fun f => f.date = d)).map Fill.closedPnl),
                     psum ((F.filter (fun f => f.date = d)).map Fill.fee)) := by
        rw [daily_fills]
        exact find?_map_key_eq_some _ (nodup_sortedDates _) (mem_sortedDates.mpr hmemF)
      by_cases hmemG : d ∈ G.map FundingPayment.date
      case pos =>
        have hfindG : (daily_funding G).find? (fun p => p.1 = d)
            = some (d, psum ((G.filter (fun g => g.date = d)).map FundingPayment.usdc)) := by
          rw [daily_funding]
          exact find?_map_key_eq_some _ (nodup_sortedDates _) (mem_sortedDates.mpr hmemG)
        refine ⟨?_, ?_, ?_⟩ <;> simp [hfind, hfindG]
      case neg =>
        have hfindG : (daily_funding G).find? (fun p => p.1 = d) = none := by
          rw [daily_funding]
          exact find?_map_key_eq_none _ (fun hmem => hmemG (mem_sortedDates.mp hmem))
        have hfilG : G.filter (fun g => g.date = d) = [] := by
          rw [List.filter_eq_nil_iff]
          intro g hg
          simp only [decide_eq_true_eq]
          rintro rfl
          exact hmemG (List.mem_map_of_mem FundingPayment.date hg)
        refine ⟨?_, ?_, ?_⟩ <;> simp [hfind, hfindG, hfilG, psum_nil]
    case neg =>
      have hfind : (daily_fills F).find? (fun p => p.1 = d) = none := by
        rw [daily_fills]
        exact find?_map_key_eq_none _ (fun hmem => hmemF (mem_sortedDates.mp hmem))
      have hfilF : F.filter (fun f => f.date = d) = [] := by
        rw [List.filter_eq_nil_iff]
        intro f hf
        simp only [decide_eq_true_eq]
        rintro rfl
        exact hmemF (List.mem_map_of_mem Fill.date hf)
      by_cases hmemG : d ∈ G.map FundingPayment.date
      case pos =>
        have hfindG : (daily_funding G).find? (fun p => p.1 = d)
            = some (d, psum ((G.filter (fun g => g.date = d)).map FundingPayment.usdc)) := by
          rw [daily_funding]
          exact find?_map_key_eq_some _ (nodup_sortedDates _) (mem_sortedDates.mpr hmemG)
        refine ⟨?_, ?_, ?_⟩ <;> simp [hfind, hfindG, hfilF, psum_nil]
      case neg =>
        have hfindG : (daily_funding G).find? (fun p => p.1 = d) = none := by
          rw [daily_funding]
          exact find?_map_key_eq_none _ (fun hmem => hmemG (mem_sortedDates.mp hmem))
        have hfilG : G.filter (fun g => g.date = d) = [] := by
          rw [List.filter_eq_nil_iff]
          intro g hg
          simp only [decide_eq_true_eq]
          rintro rfl
          exact hmemG (List.mem_map_of_mem FundingPayment.date hg)
        refine ⟨?_, ?_, ?_⟩ <;> simp [hfind, hfindG, hfilF, hfilG, psum_nil]

theorem total_funding_eq_psum (G : List FundingPayment) :
    total_funding G = psum (G.map FundingPayment.usdc) := by
  cases G with
  | nil => rfl
  | cons g gs => rfl

theorem merged_daily_sum_col (F : List Fill) (G : List FundingPayment) :
    ((merged_daily F G).map DailyRow.closedPnl).sum = psum (F.map Fill.closedPnl)
    ∧ ((merged_daily F G).map DailyRow.fee).sum = psum (F.map Fill.fee)
    ∧ ((merged_daily F G).map DailyRow.usdc).sum = psum (G.map FundingPayment.usdc) := by
  have hnd := merged_daily_dates_nodup F G
  have hcovF : ∀ f ∈ F, f.date ∈ (merged_daily F G).map DailyRow.date := fun f hf =>
    (mem_merged_daily_dates F G f.date).mpr (Or.inl (List.mem_map_of_mem Fill.date hf))
  have hcovG : ∀ g ∈ G, g.date ∈ (merged_daily F G).map DailyRow.date := fun g hg =>
    (mem_merged_daily_dates F G g.date).mpr (Or.inr (List.mem_map_of_mem FundingPayment.date hg))
  refine ⟨?_, ?_, ?_⟩
  · have h1 : (merged_daily F G).map DailyRow.closedPnl
        = (merged_daily F G).map
            (fun q => psum ((F.filter (fun f => f.date = q.date)).map Fill.closedPnl)) :=
      List.map_congr_left (fun q hq => (merged_mem_fields F G q hq).1)
    have h2 : ((merged_daily F G).map DailyRow.date).map
          (fun d => psum ((F.filter (fun f => f.date = d)).map Fill.closedPnl))
        = (merged_daily F G).map
          (fun q => psum ((F.filter (fun f => f.date = q.date)).map Fill.closedPnl)) :=
      List.map_map _ _ _
    rw [h1, ← h2]
    exact psum_partition Fill.date Fill.closedPnl hnd F hcovF
  · have h1 : (merged_daily F G).map DailyRow.fee
        = (merged_daily F G).map
            (fun q => psum ((F.filter (fun f => f.date = q.date)).map Fill.fee)) :=
      List.map_congr_left (fun q hq => (merged_mem_fields F G q hq).2.1)
    have h2 : ((merged_daily F G).map DailyRow.date).map
          (fun d => psum ((F.filter (fun f => f.date = d)).map Fill.fee))
        = (merged_daily F G).map
          (fun q => psum ((F.filter (fun f => f.date = q.date)).map Fill.fee)) :=
      List.map_map _ _ _
    rw [h1, ← h2]
    exact psum_partition Fill.date Fill.fee hnd F hcovF
  · have h1 : (merged_daily F G).map DailyRow.usdc
        = (merged_daily F G).map
            (fun q => psum ((G.filter (fun g => g.date = q.date)).map FundingPayment.usdc)) :=
      List.map_congr_left (fun q hq => (merged_mem_fields F G q hq).2.2)
    have h2 : ((merged_daily F G).map DailyRow.date).map
          (fun d => psum ((G.filter (fun g => g.date = d)).map FundingPayment.usdc))
        = (merged_daily F G).map
          (fun q => psum ((G.filter (fun g => g.date = q.date)).map FundingPayment.usdc)) :=
      List.map_map _ _ _
    rw [h1, ← h2]
    exact psum_partition FundingPayment.date FundingPayment.usdc hnd G hcovG

theorem with_net_sum (F : List Fill) (G : List FundingPayment) :
    ((with_net (merged_daily F G)).map Prod.snd).sum = net_pnl F G := by
  have h1 : (with_net (merged_daily F G)).map Prod.snd
      = (merged_daily F G).map (fun r => r.closedPnl - r.fee + r.usdc) := by
    rw [with_net, List.map_map]
    rfl
  rw [h1, sum_map_net, (merged_daily_sum_col F G).1, (merged_daily_sum_col F G).2.1,
    (merged_daily_sum_col F G).2.2, net_pnl, total_closed_pnl, total_trading_fees,
    total_funding_eq_psum]

theorem sort_values_perm (l : List (DailyRow × ℚ)) :
    List.Perm (sort_values_date l) l :=
  List.perm_insertionSort _ l

theorem sort_values_sorted (l : List (DailyRow × ℚ)) :
    (sort_values_date l).Sorted rowDateLe :=
  List.sorted_insertionSort _ l

theorem mem_with_net {m : List DailyRow} {p : DailyRow × ℚ} (hp : p ∈ with_net m) :
    p.1 ∈ m ∧ p.2 = p.1.closedPnl - p.1.fee + p.1.usdc := by
  obtain ⟨r, hr, rfl⟩ := List.mem_map.mp hp
  exact ⟨hr, rfl⟩

theorem cumsumRows_map_net (acc : ℚ) (l : List (DailyRow × ℚ)) :
    (cumsumRows acc l).map AggRow.daily_net_pnl = l.map Prod.snd := by
  induction l generalizing acc with
  | nil => rfl
  | cons p rest ih =>
    cases p with
    | mk r n => simp [cumsumRows, ih]

theorem gt_and_ne (o : Option ℚ) : (gt_zero o && ne_zero o) = gt_zero o := by
  cases o with
  | none => rfl
  | some q =>
    by_cases hq : 0 < q
    · simp [gt_zero, ne_zero, hq, ne_of_gt hq]
    · simp [gt_zero, hq]

/-- C4: the summarizer's winRate equals 100 * count(closedPnl > 0) /
count(closedPnl != 0) — computed only over closing fills — and is 0 when
no fill has nonzero closedPnl; on Scenario C's fills (closedPnl 0, 10, -5)
it is 50. -/
theorem win_rate_closing_fills (F : List Fill) :
    win_rate F
      = (if (F.filter (fun f => ne_zero f.closedPnl)).length = 0 then 0
         else 100 * ((F.filter (fun f => gt_zero f.closedPnl)).length : ℚ)
           / ((F.filter (fun f => ne_zero f.closedPnl)).length : ℚ))
    ∧ win_rate scC_F = 50 := by
  constructor
  · have hgt : F.filter (fun f => gt_zero f.closedPnl && ne_zero f.closedPnl)
        = F.filter (fun f => gt_zero f.closedPnl) :=
      List.filter_congr (fun f _ => gt_and_ne f.closedPnl)
    simp only [win_rate, wins, closed_trades, List.filter_filter]
    rw [hgt]
    by_cases hlen : (F.filter (fun f => ne_zero f.closedPnl)).length = 0
    · rw [if_pos hlen, if_neg (by omega)]
    · rw [if_neg hlen, if_pos (Nat.pos_of_ne_zero hlen)]
      ring
  · have h1 : closed_trades scC_F
        = [fillOf 0 (some 10) none, fillOf 0 (some (-5)) none] := by decide
    have h2 : wins scC_F = [fillOf 0 (some 10) none] := by decide
    rw [win_rate, h1, h2]
    norm_num

/-- C5: netPnl = totalClosedPnl - totalFees + totalFunding exactly, for
every pair of inputs (including empty ones), where totalFunding is the
sum of funding amounts and contributes 0 when funding is empty. -/
theorem net_pnl_identity (F : List Fill) (G : List FundingPayment) :
    net_pnl F G
      = psum (F.map Fill.closedPnl) - psum (F.map Fill.fee)
        + psum (G.map FundingPayment.usdc) := by
  rw [net_pnl, total_closed_pnl, total_trading_fees, total_funding_eq_psum]

/-- C6: when the raw fills input is absent (`None`) or empty, the
normalizer returns an empty fill sequence and an empty funding sequence
regardless of the raw funding content, and the daily aggregate built from
those empty sequences is empty. -/
theorem process_data_empty_fills (g : Option (List RawFunding)) :
    process_data none g = ([], [])
    ∧ process_data (some []) g = ([], [])
    ∧ daily_combined [] [] = [] := by
  exact ⟨rfl, rfl, rfl⟩

/-- C7: an unparseable numeric value becomes a missing value (no
exception), sums skip missing values (aggregate as if zero), and
corrupting any one numeric cell of a raw row — px, sz, closedPnl, fee or
startPosition of a fill, or the usdc amount of a funding record —
changes nothing in the normalized row except that one field becoming
missing. -/
theorem numeric_coercion_leniency :
    (∀ s : String, to_numeric_coerce (RawVal.bad s) = none)
    ∧ (∀ xs ys : List (Option ℚ), psum (xs ++ none :: ys) = psum (xs ++ ys))
    ∧ (∀ (r : RawFill) (s : String),
        normalizeFill { r with px := RawVal.bad s }
          = { normalizeFill r with px := none }
        ∧ normalizeFill { r with sz := RawVal.bad s }
          = { normalizeFill r with sz := none }
        ∧ normalizeFill { r with closedPnl := RawVal.bad s }
          = { normalizeFill r with closedPnl := none }
        ∧ normalizeFill { r with fee := RawVal.bad s }
          = { normalizeFill r with fee := none }
        ∧ normalizeFill { r with startPosition := RawVal.bad s }
          = { normalizeFill r with startPosition := none })
    ∧ ∀ (r : RawFunding) (s : String),
        normalizeFunding { r with usdc := RawVal.bad s }
          = { normalizeFunding r with usdc := none } := by
  refine ⟨fun s => rfl, ?_, fun r s => ⟨rfl, rfl, rfl, rfl, rfl⟩, fun r s => rfl⟩
  intro xs ys
  induction xs with
  | nil =>
    show psum (none :: ys) = psum ys
    rw [psum_cons]
    simp
  | cons x xs ih =>
    rw [List.cons_append, psum_cons, List.cons_append, psum_cons, ih]

/-- C8: if either post raises or returns a non-200 status, the client
returns no data for both streams — a success on the other call is
discarded, never surfaced as a partial dataset. -/
theorem fetch_all_or_nothing (r_fills : HttpResult (List RawFill))
    (r_funding : HttpResult (List RawFunding))
    (h : failedCall r_fills = true ∨ failedCall r_funding = true) :
    fetch_hyperliquid_data r_fills r_funding = (none, none) := by
  cases r_fills with
  | exn m => rfl
  | ok s1 b1 =>
    cases r_funding with
    | exn m => rfl
    | ok s2 b2 =>
      simp only [failedCall, bne_iff_ne] at h
      show (if s1 ≠ 200 ∨ s2 ≠ 200
        then ((none, none) : Option (List RawFill) × Option (List RawFunding))
        else (some b1, some b2)) = (none, none)
      rw [if_pos h]

/-- Witness for C8 at Scenario D: the fills call succeeds with HTTP 200
and a body, the funding call returns HTTP 500, and the client yields no
data for either stream. -/
theorem fetch_all_or_nothing_witness :
    failedCall (HttpResult.ok 500 ([] : List RawFunding)) = true
    ∧ fetch_hyperliquid_data (HttpResult.ok 200 scD_fills)
        (HttpResult.ok 500 ([] : List RawFunding)) = (none, none) :=
  ⟨by decide, fetch_all_or_nothing _ _ (Or.inr (by decide))⟩

/-- C10: a fill with missing (unparseable) closedPnl passes the
closedPnl != 0 filter, so it lands in the win-rate denominator, but it
never counts as a win; concretely one winning fill alone gives 100 while
adding a malformed fill drops the rate to 50. -/
theorem malformed_closedPnl_skews_win_rate :
    (∀ F : List Fill,
        closed_trades (F ++ [malformedFill]) = closed_trades F ++ [malformedFill]
        ∧ wins (F ++ [malformedFill]) = wins F)
    ∧ win_rate [winningFill] = 100
    ∧ win_rate [winningFill, malformedFill] = 50
    ∧ win_rate [winningFill, malformedFill] < win_rate [winningFill] := by
  have h100 : win_rate [winningFill] = 100 := by
    have h1 : closed_trades [winningFill] = [winningFill] := by decide
    have h2 : wins [winningFill] = [winningFill] := by decide
    rw [win_rate, h1, h2]
    norm_num
  have h50 : win_rate [winningFill, malformedFill] = 50 := by
    have h1 : closed_trades [winningFill, malformedFill]
        = [winningFill, malformedFill] := by decide
    have h2 : wins [winningFill, malformedFill] = [winningFill] := by decide
    rw [win_rate, h1, h2]
    norm_num
  refine ⟨?_, h100, h50, by rw [h100, h50]; norm_num⟩
  intro F
  constructor
  · rw [closed_trades, closed_trades, List.filter_append]
    congr 1
  · rw [wins, wins, closed_trades, closed_trades, List.filter_append,
      List.filter_append]
    have hnil : List.filter (fun f => gt_zero f.closedPnl)
        (List.filter (fun f => ne_zero f.closedPnl) [malformedFill]) = [] := rfl
    rw [hnil, List.append_nil]

theorem daily_combined_get_fields (F : List Fill) (G : List FundingPayment)
    (i : Nat) (h : i < (daily_combined F G).length)
    (h' : i < (sort_values_date (with_net (merged_daily F G))).length) :
    ((daily_combined F G).get ⟨i, h⟩).date
        = ((sort_values_date (with_net (merged_daily F G))).get ⟨i, h'⟩).1.date
    ∧ ((daily_combined F G).get ⟨i, h⟩).closedPnl
        = ((sort_values_date (with_net (merged_daily F G))).get ⟨i, h'⟩).1.closedPnl
    ∧ ((daily_combined F G).get ⟨i, h⟩).fee
        = ((sort_values_date (with_net (merged_daily F G))).get ⟨i, h'⟩).1.fee
    ∧ ((daily_combined F G).get ⟨i, h⟩).usdc
        = ((sort_values_date (with_net (merged_daily F G))).get ⟨i, h'⟩).1.usdc
    ∧ ((daily_combined F G).get ⟨i, h⟩).daily_net_pnl
        = ((sort_values_date (with_net (merged_daily F G))).get ⟨i, h'⟩).2 :=
  cumsumRows_get 0 _ i h h'

theorem daily_combined_get_cumulative (F : List Fill) (G : List FundingPayment)
    (i : Nat) (h : i < (daily_combined F G).length) :
    ((daily_combined F G).get ⟨i, h⟩).cumulative_pnl
      = 0 + (((sort_values_date (with_net (merged_daily F G))).take (i + 1)).map
          Prod.snd).sum :=
  cumsumRows_get_cumulative 0 _ i h

/-- C1: the daily aggregate is sorted ascending by date, each row's
daily net is closedPnlSum - feeSum + fundingSum, and each row's
cumulativeNet is the prefix sum of the daily nets up to and including
that row. -/
theorem daily_combined_prefix_sum (F : List Fill) (G : List FundingPayment) :
    ((daily_combined F G).map AggRow.date).Sorted (· ≤ ·)
    ∧ ∀ i (h : i < (daily_combined F G).length),
        ((daily_combined F G).get ⟨i, h⟩).daily_net_pnl
            = ((daily_combined F G).get ⟨i, h⟩).closedPnl
              - ((daily_combined F G).get ⟨i, h⟩).fee
              + ((daily_combined F G).get ⟨i, h⟩).usdc
        ∧ ((daily_combined F G).get ⟨i, h⟩).cumulative_pnl
            = (((daily_combined F G).take (i + 1)).map AggRow.daily_net_pnl).sum := by
  constructor
  · rw [daily_combined, cumsumRows_map_date]
    exact List.Pairwise.map _ (fun a b hab => hab)
      (sort_values_sorted (with_net (merged_daily F G)))
  · intro i h
    have h' : i < (sort_values_date (with_net (merged_daily F G))).length := by
      rw [daily_combined, cumsumRows_length] at h
      exact h
    obtain ⟨_, hc, hf, hu, hn⟩ := daily_combined_get_fields F G i h h'
    constructor
    · rw [hn, hc, hf, hu]
      have hp : (sort_values_date (with_net (merged_daily F G))).get ⟨i, h'⟩
          ∈ with_net (merged_daily F G) :=
        (sort_values_perm _).mem_iff.mp (List.get_mem _ i h')
      exact (mem_with_net hp).2
    · rw [daily_combined_get_cumulative F G i h, zero_add]
      have hmt : ((daily_combined F G).take (i + 1)).map AggRow.daily_net_pnl
          = (((sort_values_date (with_net (merged_daily F G))).take (i + 1)).map
              Prod.snd) := by
        rw [List.map_take, List.map_take, daily_combined, cumsumRows_map_net]
      rw [hmt]

/-- Helper fact for the Scenario A witnesses: the aggregate has (at
least) two rows. -/
theorem scA_len : 1 < (daily_combined scA_F scA_G).length := by decide

/-- Witness for C1 at Scenario A: the aggregate's second row (index 1)
satisfies both the daily-net equation and the prefix-sum equation. -/
theorem daily_combined_prefix_sum_witness :
    1 < (daily_combined scA_F scA_G).length
    ∧ (((daily_combined scA_F scA_G).get ⟨1, scA_len⟩).daily_net_pnl
          = ((daily_combined scA_F scA_G).get ⟨1, scA_len⟩).closedPnl
            - ((daily_combined scA_F scA_G).get ⟨1, scA_len⟩).fee
            + ((daily_combined scA_F scA_G).get ⟨1, scA_len⟩).usdc
        ∧ ((daily_combined scA_F scA_G).get ⟨1, scA_len⟩).cumulative_pnl
          = (((daily_combined scA_F scA_G).take 2).map AggRow.daily_net_pnl).sum) :=
  ⟨scA_len, (daily_combined_prefix_sum scA_F scA_G).2 1 scA_len⟩

/-- C2: the date column of the daily aggregate is exactly the union of
the dates occurring in the fills and in the funding payments, and it has
no duplicates. -/
theorem daily_combined_dates_union (F : List Fill) (G : List FundingPayment) :
    (∀ d : Nat, d ∈ (daily_combined F G).map AggRow.date
        ↔ d ∈ F.map Fill.date ∨ d ∈ G.map FundingPayment.date)
    ∧ ((daily_combined F G).map AggRow.date).Nodup := by
  have hperm : List.Perm ((daily_combined F G).map AggRow.date)
      ((merged_daily F G).map DailyRow.date) := by
    rw [daily_combined, cumsumRows_map_date]
    have h1 := (sort_values_perm (with_net (merged_daily F G))).map
      (fun p : DailyRow × ℚ => p.1.date)
    have h2 : (with_net (merged_daily F G)).map (fun p : DailyRow × ℚ => p.1.date)
        = (merged_daily F G).map DailyRow.date := by
      rw [with_net, List.map_map]
      rfl
    exact h2 ▸ h1
  constructor
  · intro d
    rw [hperm.mem_iff]
    exact mem_merged_daily_dates F G d
  · exact hperm.nodup_iff.mpr (merged_daily_dates_nodup F G)

/-- C3: in the daily aggregate, a row whose date does not occur in the
funding stream has fundingSum exactly 0, and a row whose date does not
occur in the fills stream has closedPnlSum and feeSum exactly 0. -/
theorem daily_combined_zero_fill (F : List Fill) (G : List FundingPayment)
    (i : Nat) (h : i < (daily_combined F G).length) :
    (((daily_combined F G).get ⟨i, h⟩).date ∉ G.map FundingPayment.date →
        ((daily_combined F G).get ⟨i, h⟩).usdc = 0)
    ∧ (((daily_combined F G).get ⟨i, h⟩).date ∉ F.map Fill.date →
        ((daily_combined F G).get ⟨i, h⟩).closedPnl = 0
        ∧ ((daily_combined F G).get ⟨i, h⟩).fee = 0) := by
  have h' : i < (sort_values_date (with_net (merged_daily F G))).length := by
    rw [daily_combined, cumsumRows_length] at h
    exact h
  obtain ⟨hd, hc, hf, hu, _⟩ := daily_combined_get_fields F G i h h'
  have hp : (sort_values_date (with_net (merged_daily F G))).get ⟨i, h'⟩
      ∈ with_net (merged_daily F G) :=
    (sort_values_perm _).mem_iff.mp (List.get_mem _ i h')
  obtain ⟨hpm, _⟩ := mem_with_net hp
  obtain ⟨hc', hf', hu'⟩ := merged_mem_fields F G _ hpm
  constructor
  · intro hnot
    rw [hd] at hnot
    rw [hu, hu']
    have hfil : G.filter
        (fun g => g.date
          = ((sort_values_date (with_net (merged_daily F G))).get ⟨i, h'⟩).1.date)
        = [] := by
      rw [List.filter_eq_nil_iff]
      intro g hg
      simp only [decide_eq_true_eq]
      intro heq
      exact hnot (heq ▸ List.mem_map_of_mem FundingPayment.date hg)
    rw [hfil]
    rfl
  · intro hnot
    rw [hd] at hnot
    rw [hc, hc', hf, hf']
    have hfil : F.filter
        (fun f => f.date
          = ((sort_values_date (with_net (merged_daily F G))).get ⟨i, h'⟩).1.date)
        = [] := by
      rw [List.filter_eq_nil_iff]
      intro f hf2
      simp only [decide_eq_true_eq]
      intro heq
      exact hnot (heq ▸ List.mem_map_of_mem Fill.date hf2)
    rw [hfil]
    exact ⟨rfl, rfl⟩

/-- Witness for C3 at Scenario A: the second row's date (day 1) occurs
only in the fills, so its fundingSum is 0. -/
theorem daily_combined_zero_fill_witness :
    ((daily_combined scA_F scA_G).get ⟨1, scA_len⟩).date
        ∉ scA_G.map FundingPayment.date
    ∧ ((daily_combined scA_F scA_G).get ⟨1, scA_len⟩).usdc = 0 :=
  ⟨by decide, (daily_combined_zero_fill scA_F scA_G 1 scA_len).1 (by decide)⟩

/-- C9: when both streams parse cleanly and the aggregate is nonempty,
the last cumulativeNet of the daily aggregate equals the summarizer's
netPnl — the metrics path and the chart path agree. -/
theorem daily_combined_last_eq_net_pnl (F : List Fill) (G : List FundingPayment)
    (hF : ∀ f ∈ F, (Fill.closedPnl f).isSome = true ∧ (Fill.fee f).isSome = true)
    (hG : ∀ g ∈ G, (FundingPayment.usdc g).isSome = true)
    (hne : daily_combined F G ≠ []) :
    ∃ r : AggRow, (daily_combined F G).getLast? = some r
      ∧ r.cumulative_pnl = net_pnl F G := by
  have hl : sort_values_date (with_net (merged_daily F G)) ≠ [] := by
    intro hnil
    apply hne
    rw [daily_combined, hnil]
    rfl
  obtain ⟨r, hlast, hcum⟩ := cumsumRows_getLast? _ 0 hl
  refine ⟨r, hlast, ?_⟩
  rw [hcum, zero_add]
  have hps : ((sort_values_date (with_net (merged_daily F G))).map Prod.snd).sum
      = ((with_net (merged_daily F G)).map Prod.snd).sum :=
    ((sort_values_perm _).map Prod.snd).sum_eq
  rw [hps, with_net_sum]

/-- Witness for C9 at Scenario A: all numeric fields parse, the aggregate
is nonempty, and its last cumulativeNet equals netPnl. -/
theorem daily_combined_last_eq_net_pnl_witness :
    (∀ f ∈ scA_F, (Fill.closedPnl f).isSome = true ∧ (Fill.fee f).isSome = true)
    ∧ (∀ g ∈ scA_G, (FundingPayment.usdc g).isSome = true)
    ∧ daily_combined scA_F scA_G ≠ []
    ∧ ∃ r : AggRow, (daily_combined scA_F scA_G).getLast? = some r
        ∧ r.cumulative_pnl = net_pnl scA_F scA_G :=
  ⟨by decide, by decide, by decide,
    daily_combined_last_eq_net_pnl scA_F scA_G (by decide) (by decide) (by decide)⟩

end TrkHL
